import Mathlib

/-!
# Verification of the clinical-trials data-acquisition pipeline

Shallow embedding, in Lean 4, of the pure core of the repository's
data-acquisition and normalization pipeline:

* `analysis/playwright_scraper.py` — text cleanup (`_clean_text`),
  identifier canonicalization (`_canonical_nct`), year extraction
  (`_extract_year`), and the pure skeleton of `scrape` (pagination
  collection with seen-set deduplication, detail extraction, status
  filtering, record emission and truncation);
* `analysis/api_client.py` — `_extract_year`;
* `analysis/geo.py` — `canonicalize_country` (the external `pycountry`
  lookups are abstracted as an oracle parameter, since their data is not
  part of the repository);
* `analysis/playwright_runner.py` — `run_playwright_subprocess`, modelled
  over an explicit trace of timed child-output events.

Strings are modelled as `List Char`.  Python regular-expression classes are
modelled over their content: `\s` and `str.split()/strip()` whitespace as
the Unicode whitespace set, `\d` and `\w` over their ASCII content
(non-ASCII letters are treated as non-word characters).  Python's falsy
test `not s` on an optional string is `none` or the empty string.
-/

namespace ClinicalTrials

/-- Python whitespace (the `\s` class and `str.split`/`str.strip` set),
given by code point. -/
def isPySpace (c : Char) : Bool :=
  let n := c.toNat
  n = 0x20 || n = 0x09 || n = 0x0a || n = 0x0b || n = 0x0c || n = 0x0d ||
  (0x1c ≤ n && n ≤ 0x1f) || n = 0x85 || n = 0xa0 || n = 0x1680 ||
  (0x2000 ≤ n && n ≤ 0x200a) || n = 0x2028 || n = 0x2029 || n = 0x202f ||
  n = 0x205f || n = 0x3000

/-- The characters removed by `_clean_text`: the BOM `﻿` and the
zero-width range `[​-‏]`. -/
def isZeroWidthStrip (c : Char) : Bool :=
  let n := c.toNat
  n = 0xFEFF || (0x200B ≤ n && n ≤ 0x200F)

/-- `s.replace(" ", " ")` acting on one character. -/
def replaceNbsp (c : Char) : Char :=
  if c.toNat = 0xA0 then ' ' else c

/-- The character substitution/removal phase of `_clean_text`:
`s.replace(" ", " ").replace("﻿", "")` followed by
`re.sub(r"[​-‏]", "", s)`.  `replaceNbsp` never produces a
removed character, so performing the map first is equivalent. -/
def preClean (l : List Char) : List Char :=
  (l.map replaceNbsp).filter (fun c => !isZeroWidthStrip c)

/-- Maximal whitespace-separated words of a string (`str.split()`),
accumulating the current word. -/
def wordsAux : List Char → List Char → List (List Char)
  | [], acc => if acc = [] then [] else [acc]
  | c :: cs, acc =>
    if isPySpace c then
      if acc = [] then wordsAux cs [] else acc :: wordsAux cs []
    else wordsAux cs (acc ++ [c])

/-- Maximal whitespace-separated words of a string, as in `str.split()`. -/
def words (l : List Char) : List (List Char) :=
  wordsAux l []

/-- `" ".join`, a single space between consecutive words. -/
def joinWords : List (List Char) → List Char
  | [] => []
  | [w] => w
  | w :: ws => w ++ ' ' :: joinWords ws

/-- Whitespace normalization of `_clean_text`:
`re.sub(r"\s+", " ", s).strip()`, which equals `" ".join(s.split())`,
composed with the character substitution/removal phase. -/
def cleanChars (l : List Char) : List Char :=
  joinWords (words (preClean l))

/-- `_clean_text` (playwright_scraper.py): `None` maps to `None`, any
string to its cleaned form (possibly empty). -/
def cleanText : Option (List Char) → Option (List Char)
  | none => none
  | some l => some (cleanChars l)

/-- ASCII content of the regex `\w` class (word characters). -/
def isWordChar (c : Char) : Bool :=
  c.isAlphanum || c = '_'

/-- One attempt of the regex `\bNCT\s*(\d{4,})\b` (IGNORECASE) at the
current position.  `prevW` records whether the preceding character is a
word character (`\b` before `N` holds iff it is not).  The trailing `\b`
forces the greedy `\d{4,}` group to be the maximal digit run followed by a
non-word character or the end. -/
def matchNctAt (l : List Char) (prevW : Bool) : Option (List Char) :=
  if prevW then none else
  match l with
  | c1 :: c2 :: c3 :: rest =>
    if (c1 = 'N' || c1 = 'n') && (c2 = 'C' || c2 = 'c') && (c3 = 'T' || c3 = 't') then
      let afterWs := rest.dropWhile isPySpace
      let ds := afterWs.takeWhile Char.isDigit
      let after := afterWs.dropWhile Char.isDigit
      if 4 ≤ ds.length ∧ (after = [] ∨ ∀ a ∈ after.take 1, isWordChar a = false) then
        some ds
      else none
    else none
  | _ => none

/-- Leftmost search of `\bNCT\s*(\d{4,})\b` (IGNORECASE), returning the
captured digit group. -/
def searchNct : List Char → Bool → Option (List Char)
  | [], _ => none
  | c :: cs, prevW =>
    match matchNctAt (c :: cs) prevW with
    | some d => some d
    | none => searchNct cs (isWordChar c)

/-- `_canonical_nct` (playwright_scraper.py): clean the text; an empty or
absent result is absent; a match of `\bNCT\s*(\d{4,})\b` yields
`NCT<digits>`; otherwise the cleaned text is returned unchanged. -/
def canonicalNct (v : Option (List Char)) : Option (List Char) :=
  match cleanText v with
  | none => none
  | some s =>
    if s = [] then none
    else
      match searchNct s false with
      | some d => some ('N' :: 'C' :: 'T' :: d)
      | none => some s

/-! ## Year extraction (`api_client.py` and `playwright_scraper.py`) -/

/-- Numeric value of a digit string. -/
def digitsToNat (l : List Char) : Nat :=
  l.foldl (fun acc c => 10 * acc + (c.toNat - 48)) 0

/-- Leftmost window of four consecutive digits, the regex `(\d{4})`. -/
def searchFourDigits : List Char → Option (List Char)
  | [] => none
  | c :: cs =>
    match c :: cs with
    | a :: b :: d :: e :: _ =>
      if a.isDigit && b.isDigit && d.isDigit && e.isDigit then some [a, b, d, e]
      else searchFourDigits cs
    | _ => none

/-- One attempt of the regex `\b(19|20)\d{2}\b` at the current position;
`prevW` tells whether the preceding character is a word character. -/
def matchYear19At (l : List Char) (prevW : Bool) : Option (List Char) :=
  if prevW then none else
  match l with
  | a :: b :: d :: e :: rest =>
    if ((a = '1' ∧ b = '9') ∨ (a = '2' ∧ b = '0')) ∧ d.isDigit ∧ e.isDigit
        ∧ (rest = [] ∨ ∀ x ∈ rest.take 1, isWordChar x = false) then
      some [a, b, d, e]
    else none
  | _ => none

/-- Leftmost search of `\b(19|20)\d{2}\b`. -/
def searchYear19 : List Char → Bool → Option (List Char)
  | [], _ => none
  | c :: cs, prevW =>
    match matchYear19At (c :: cs) prevW with
    | some y => some y
    | none => searchYear19 cs (isWordChar c)

/-- `_extract_year` (api_client.py) on the string/None domain: the first
window of four consecutive digits, as an integer; `None` maps to `None`
(the list branch of the Python function is outside the string domain
quantified by the claims). -/
def apiExtractYear (v : Option (List Char)) : Option Nat :=
  match v with
  | none => none
  | some s => (searchFourDigits s).map digitsToNat

/-- `_extract_year` (playwright_scraper.py): a falsy input (`None` or the
empty string) is absent; otherwise the first word-bounded `19xx`/`20xx`
token is preferred, falling back to the first window of four consecutive
digits. -/
def pwExtractYear (v : Option (List Char)) : Option Nat :=
  match v with
  | none => none
  | some t =>
    if t = [] then none
    else
      match searchYear19 t false with
      | some y => some (digitsToNat y)
      | none => (searchFourDigits t).map digitsToNat

/-! ## Country canonicalization (`geo.py`)

`canonicalize_country` consults the external `pycountry` library, whose
data set is not part of the repository; its two lookups are abstracted as
an oracle.  A lookup that raises (both call sites catch every exception)
or a fuzzy search returning no results is modelled as `none`. -/

/-- The external `pycountry` lookups: `countries.lookup(n).name` and
`countries.search_fuzzy(n)[0].name`, with failure as `none`. -/
structure CountryOracle where
  lookup : List Char → Option (List Char)
  fuzzy : List Char → Option (List Char)

/-- `_MANUAL_COUNTRY_MAP` (geo.py). -/
def manualCountryMap : List (List Char × List Char) :=
  [("USA".toList, "United States".toList),
   ("U.S.".toList, "United States".toList),
   ("U.S.A.".toList, "United States".toList),
   ("US".toList, "United States".toList),
   ("UK".toList, "United Kingdom".toList),
   ("U.K.".toList, "United Kingdom".toList),
   ("England".toList, "United Kingdom".toList),
   ("Korea, Republic of".toList, "South Korea".toList),
   ("People's Republic of China".toList, "China".toList),
   ("PRC".toList, "China".toList),
   ("Great Britain".toList, "United Kingdom".toList)]

/-- Exact (case-sensitive) lookup in `_MANUAL_COUNTRY_MAP`. -/
def manualLookup (n : List Char) : Option (List Char) :=
  (manualCountryMap.find? (fun p => p.1 = n)).map (·.2)

/-- `str.strip()`: remove leading and trailing whitespace. -/
def pyStrip (l : List Char) : List Char :=
  ((l.dropWhile isPySpace).reverse.dropWhile isPySpace).reverse

/-- `str.title()`: uppercase every character not preceded by a letter,
lowercase the rest (ASCII casing). -/
def pyTitle (l : List Char) : List Char :=
  go false l
where
  go : Bool → List Char → List Char
    | _, [] => []
    | prevAlpha, c :: cs =>
      (if prevAlpha then c.toLower else c.toUpper) :: go c.isAlpha cs

/-- The fallback chain after the manual map misses: exact lookup, then
fuzzy lookup, then `n.title()`. -/
def oracleChain (o : CountryOracle) (n : List Char) : List Char :=
  match o.lookup n with
  | some cname => cname
  | none =>
    match o.fuzzy n with
    | some fname => fname
    | none => pyTitle n

/-- `canonicalize_country` (geo.py): falsy input or blank after strip is
absent; else the manual alias table, else the external lookup chain. -/
def canonicalizeCountry (o : CountryOracle) (name : Option (List Char)) :
    Option (List Char) :=
  match name with
  | none => none
  | some raw =>
    if raw = [] then none
    else
      let n := pyStrip raw
      if n = [] then none
      else
        match manualLookup n with
        | some v => some v
        | none => some (oracleChain o n)

/-- The oracle in force when the external library fails or finds nothing
on every input — the regime `canonicalize_country`'s catch-all exception
handlers are written for. -/
def failingOracle : CountryOracle :=
  { lookup := fun _ => none, fuzzy := fun _ => none }

/-! ## Process orchestrator (`playwright_runner.py`)

`run_playwright_subprocess` reads the child's combined output stream
line-by-line and checks the elapsed wall clock only after each line is
received.  The run is modelled over an explicit trace: `events` is the
time-ordered list of `(arrival time, line)` pairs the child writes, and
`exitTime`/`exitCode` describe its termination if it is never killed.
`time.perf_counter() - start` at the check following a line is that
line's arrival time; the elapsed value returned is the time of the last
observed event (kill time, or child exit on the end-of-stream path). -/

/-- The synthetic log line appended on a timeout kill. -/
def killMsg : List Char := "Process killed due to timeout.".toList

/-- `SIGKILL` exit status of a killed child, as seen by `proc.wait`. -/
def killCode : Int := -9

/-- `if timeout and (time.perf_counter() - start) > timeout:` — a `None`
or zero timeout is falsy; the comparison is strict. -/
def timeoutTriggered (timeout : Option Nat) (t : Nat) : Bool :=
  match timeout with
  | none => false
  | some T => decide (0 < T) && decide (T < t)

/-- The `for line in proc.stdout:` loop with its per-line timeout check,
followed by `proc.wait` on the end-of-stream path. -/
def superviseGo (timeout : Option Nat) (exitTime : Nat) (exitCode : Int) :
    List (Nat × List Char) → List (List Char) → Int × Nat × List (List Char)
  | [], logs => (exitCode, exitTime, logs)
  | (t, line) :: rest, logs =>
    let logs' := logs ++ [line]
    if timeoutTriggered timeout t then (killCode, t, logs' ++ [killMsg])
    else superviseGo timeout exitTime exitCode rest logs'

/-- `run_playwright_subprocess` (playwright_runner.py) over a child trace:
returns `(returncode, elapsed, logs)`. -/
def runPlaywrightSubprocess (timeout : Option Nat)
    (events : List (Nat × List Char)) (exitTime : Nat) (exitCode : Int) :
    Int × Nat × List (List Char) :=
  superviseGo timeout exitTime exitCode events []

/-! ## Browser extraction pipeline (`playwright_scraper.py`, `scrape`)

The pure skeleton of `scrape` over an abstracted environment:

* `pages` is the sequence of result-list snapshots the pagination loop
  scans, each a list of raw per-candidate extractions as produced by the
  JavaScript in `_pairs_from_search_page` (the loop ends early when the
  target count is reached, and ends when the next-page control is absent,
  disabled, or fails — i.e. when the snapshot sequence is exhausted);
* `detail` maps a detail-page URL to the `(brief_title, start_year)`
  result of `_extract_title_and_start_year` on that page.
-/

/-- Python's falsy test `not s` for an optional string. -/
def pyFalsyStr : Option (List Char) → Bool
  | none => true
  | some s => s.isEmpty

/-- One raw entry produced by the JavaScript of `_pairs_from_search_page`:
`{ nct, url, country, briefTitle }`, each possibly `null`. -/
structure RawItem where
  nct : Option (List Char)
  url : Option (List Char)
  briefTitle : Option (List Char)
  country : Option (List Char)
deriving DecidableEq

/-- One candidate as assembled by `_pairs_from_search_page`. -/
structure Candidate where
  nctId : Option (List Char)
  url : Option (List Char)
  briefTitle : Option (List Char)
  country : Option (List Char)
deriving DecidableEq

/-- `_pairs_from_search_page`: canonicalize the identifier, clean the
captured title and country, pass the URL through. -/
def pairsFromSearchPage (raw : List RawItem) : List Candidate :=
  raw.map (fun r =>
    { nctId := canonicalNct r.nct
      url := r.url
      briefTitle := cleanText r.briefTitle
      country := cleanText r.country })

/-- The inner `for it in _pairs_from_search_page(page):` loop of `scrape`:
skip a candidate whose canonical identifier is falsy or already seen,
otherwise append it and record the identifier, breaking once
`max_results` candidates are collected. -/
def scanPage (maxR : Nat) :
    List Candidate → List Candidate → List (List Char) →
    List Candidate × List (List Char)
  | [], pairs, seen => (pairs, seen)
  | it :: rest, pairs, seen =>
    match it.nctId with
    | none => scanPage maxR rest pairs seen
    | some nct =>
      if nct.isEmpty || seen.contains nct then scanPage maxR rest pairs seen
      else
        let pairs' := pairs ++ [it]
        let seen' := nct :: seen
        if maxR ≤ pairs'.length then (pairs', seen')
        else scanPage maxR rest pairs' seen'

/-- The `while len(pairs) < max_results:` pagination loop of `scrape` over
the sequence of scanned snapshots. -/
def collectPairs (maxR : Nat) :
    List (List RawItem) → List Candidate → List (List Char) → List Candidate
  | [], pairs, _ => pairs
  | pg :: pgs, pairs, seen =>
    if pairs.length < maxR then
      let ps := scanPage maxR (pairsFromSearchPage pg) pairs seen
      if maxR ≤ ps.1.length then ps.1
      else collectPairs maxR pgs ps.1 ps.2
    else pairs

/-- One canonical Trial Record as written to the Run Artifact. -/
structure Record where
  nctId : Option (List Char)
  briefTitle : Option (List Char)
  startYear : Option Nat
  country : Option (List Char)
deriving DecidableEq

/-- Substring test: does `needle` occur contiguously in `hay`? -/
def listHasInfix (needle : List Char) : List Char → Bool
  | [] => needle.isEmpty
  | c :: t => needle.isPrefixOf (c :: t) || listHasInfix needle t

/-- `"unknown status" in t.lower()`. -/
def containsUnknown (t : List Char) : Bool :=
  listHasInfix "unknown status".toList (t.map Char.toLower)

/-- `brief_title and "unknown status" in brief_title.lower()`. -/
def btUnknownSkip : Option (List Char) → Bool
  | none => false
  | some t => !t.isEmpty && containsUnknown t

/-- Python's `a or b` on optional strings: `b` whenever `a` is falsy. -/
def pyOr (a b : Option (List Char)) : Option (List Char) :=
  if pyFalsyStr a then b else a

/-- The `for it in pairs[:max_results]:` loop of `scrape`: drop a
candidate whose identifier or URL is falsy, query the detail page, drop
the candidate when its detail title is truthy and contains
`"unknown status"`, emit the record with the detail title or the
results-list title as fallback, and log a `WARN_TITLE_NONE` diagnostic
`(nctId, url)` when the final title is falsy.  Returns the emitted
records and the diagnostics, both in order. -/
def buildRecords (detail : List Char → Option (List Char) × Option Nat) :
    List Candidate → List Record × List (List Char × List Char)
  | [] => ([], [])
  | it :: rest =>
    if pyFalsyStr it.nctId || pyFalsyStr it.url then buildRecords detail rest
    else
      let url := it.url.getD []
      let td := detail url
      if btUnknownSkip td.1 then buildRecords detail rest
      else
        let finalTitle := pyOr td.1 it.briefTitle
        let tl := buildRecords detail rest
        (⟨it.nctId, finalTitle, td.2, it.country⟩ :: tl.1,
         (if pyFalsyStr finalTitle then [(it.nctId.getD [], url)] else []) ++ tl.2)

/-- The outcome of one `scrape` invocation: the record lines written to
the Run Artifact, the returned count, and the diagnostic lines. -/
structure ScrapeResult where
  written : List Record
  count : Nat
  warns : List (List Char × List Char)
deriving DecidableEq

/-- `scrape` (playwright_scraper.py): collect deduplicated candidates up
to `max_results`, build records from `pairs[:max_results]`, write
`records[:max_results]` one line each, and return that number. -/
def scrapeRun (pages : List (List RawItem)) (maxR : Nat)
    (detail : List Char → Option (List Char) × Option Nat) : ScrapeResult :=
  let pairs := collectPairs maxR pages [] []
  let rw := buildRecords detail (pairs.take maxR)
  { written := rw.1.take maxR
    count := (rw.1.take maxR).length
    warns := rw.2 }

/-- A concrete raw result-list entry with a canonical identifier but no
detail-page link. -/
def urllessRaw : RawItem :=
  { nct := some "NCT12340001".toList, url := none,
    briefTitle := some "T".toList, country := none }

/-- The candidate `_pairs_from_search_page` builds from `urllessRaw`. -/
def urllessCand : Candidate :=
  { nctId := some "NCT12340001".toList, url := none,
    briefTitle := some "T".toList, country := none }

/-! ## Supporting lemmas -/

theorem scanPage_length_le (maxR : Nat) (items : List Candidate)
    (pairs : List Candidate) (seen : List (List Char))
    (h : pairs.length < maxR) :
    (scanPage maxR items pairs seen).1.length ≤ maxR := by
  induction items generalizing pairs seen with
  | nil => simpa [scanPage] using Nat.le_of_lt h
  | cons it rest ih =>
    simp only [scanPage]
    cases hn : it.nctId with
    | none => exact ih pairs seen h
    | some nct =>
      by_cases hskip : (nct.isEmpty || seen.contains nct) = true
      · simp only [hskip, if_pos]
        exact ih pairs seen h
      · simp only [hskip, if_neg, Bool.not_eq_true]
        by_cases hfull : maxR ≤ (pairs ++ [it]).length
        · simp only [hfull, if_pos]
          simp only [List.length_append, List.length_cons, List.length_nil]
          omega
        · simp only [hfull, if_neg]
          exact ih _ _ (by omega)

theorem collectPairs_length_le (maxR : Nat) (pages : List (List RawItem))
    (pairs : List Candidate) (seen : List (List Char))
    (h : pairs.length ≤ maxR) :
    (collectPairs maxR pages pairs seen).length ≤ maxR := by
  induction pages generalizing pairs seen with
  | nil => simpa [collectPairs] using h
  | cons pg pgs ih =>
    simp only [collectPairs]
    by_cases hlt : pairs.length < maxR
    · simp only [hlt, if_pos]
      have hscan := scanPage_length_le maxR (pairsFromSearchPage pg) pairs seen hlt
      by_cases hfull : maxR ≤ (scanPage maxR (pairsFromSearchPage pg) pairs seen).1.length
      · simpa [hfull] using hscan
      · simp only [hfull, if_neg]
        exact ih _ _ hscan
    · simpa [hlt] using h

/-- Every record emitted by the detail loop comes from a candidate of the
input list with a truthy identifier and URL whose detail title did not
trigger the unknown-status skip; its fields are determined by that
candidate and the detail oracle. -/
theorem buildRecords_mem_spec
    (detail : List Char → Option (List Char) × Option Nat)
    (pairs : List Candidate) (r : Record)
    (hr : r ∈ (buildRecords detail pairs).1) :
    ∃ it ∈ pairs,
      pyFalsyStr it.nctId = false ∧ pyFalsyStr it.url = false ∧
      btUnknownSkip (detail (it.url.getD [])).1 = false ∧
      r.nctId = it.nctId ∧
      r.briefTitle = pyOr (detail (it.url.getD [])).1 it.briefTitle ∧
      r.startYear = (detail (it.url.getD [])).2 ∧
      r.country = it.country := by
  induction pairs with
  | nil => simp [buildRecords] at hr
  | cons it rest ih =>
    simp only [buildRecords] at hr
    by_cases hfal : (pyFalsyStr it.nctId || pyFalsyStr it.url) = true
    · rw [if_pos hfal] at hr
      obtain ⟨it', hmem, hprops⟩ := ih hr
      exact ⟨it', List.mem_cons_of_mem _ hmem, hprops⟩
    · rw [if_neg hfal] at hr
      by_cases hus : btUnknownSkip (detail (it.url.getD [])).1 = true
      · rw [if_pos hus] at hr
        obtain ⟨it', hmem, hprops⟩ := ih hr
        exact ⟨it', List.mem_cons_of_mem _ hmem, hprops⟩
      · rw [if_neg hus] at hr
        rcases List.mem_cons.mp hr with hEq | hmem
        · refine ⟨it, List.mem_cons_self _ _, ?_, ?_, ?_, ?_, ?_, ?_, ?_⟩ <;>
            simp_all [Bool.or_eq_true, Bool.not_eq_true, hEq]
        · obtain ⟨it', hmem', hprops⟩ := ih hmem
          exact ⟨it', List.mem_cons_of_mem _ hmem', hprops⟩

/-- Every diagnostic `(nctId, url)` logged by the detail loop likewise
comes from a candidate with a truthy identifier and URL. -/
theorem buildRecords_warn_spec
    (detail : List Char → Option (List Char) × Option Nat)
    (pairs : List Candidate) (w : List Char × List Char)
    (hw : w ∈ (buildRecords detail pairs).2) :
    ∃ it ∈ pairs,
      pyFalsyStr it.nctId = false ∧ pyFalsyStr it.url = false ∧
      w.1 = it.nctId.getD [] := by
  induction pairs with
  | nil => simp [buildRecords] at hw
  | cons it rest ih =>
    simp only [buildRecords] at hw
    by_cases hfal : (pyFalsyStr it.nctId || pyFalsyStr it.url) = true
    · rw [if_pos hfal] at hw
      obtain ⟨it', hmem, hprops⟩ := ih hw
      exact ⟨it', List.mem_cons_of_mem _ hmem, hprops⟩
    · rw [if_neg hfal] at hw
      by_cases hus : btUnknownSkip (detail (it.url.getD [])).1 = true
      · rw [if_pos hus] at hw
        obtain ⟨it', hmem, hprops⟩ := ih hw
        exact ⟨it', List.mem_cons_of_mem _ hmem, hprops⟩
      · rw [if_neg hus] at hw
        simp only [List.mem_append] at hw
        rcases hw with hw | hw
        · by_cases hft : pyFalsyStr (pyOr (detail (it.url.getD [])).1 it.briefTitle) = true
          · rw [if_pos hft] at hw
            simp only [List.mem_singleton] at hw
            refine ⟨it, List.mem_cons_self _ _, ?_, ?_, ?_⟩ <;>
              simp_all [Bool.or_eq_true, Bool.not_eq_true, hw]
          · rw [if_neg hft] at hw
            simp at hw
        · obtain ⟨it', hmem', hprops⟩ := ih hw
          exact ⟨it', List.mem_cons_of_mem _ hmem', hprops⟩

/-- The identifiers of the emitted records form a sublist of the
identifiers of the candidates. -/
theorem buildRecords_nctIds_sublist
    (detail : List Char → Option (List Char) × Option Nat)
    (pairs : List Candidate) :
    ((buildRecords detail pairs).1.map Record.nctId).Sublist
      (pairs.map Candidate.nctId) := by
  induction pairs with
  | nil => simp [buildRecords]
  | cons it rest ih =>
    simp only [buildRecords]
    by_cases hfal : (pyFalsyStr it.nctId || pyFalsyStr it.url) = true
    · rw [if_pos hfal]
      exact ih.trans (List.sublist_cons_self _ _)
    · rw [if_neg hfal]
      by_cases hus : btUnknownSkip (detail (it.url.getD [])).1 = true
      · rw [if_pos hus]
        exact ih.trans (List.sublist_cons_self _ _)
      · rw [if_neg hus]
        simp only [List.map_cons]
        exact List.Sublist.cons₂ _ ih

/-- Seen-set invariant of the inner collection loop: candidate
identifiers stay pairwise distinct, every collected candidate's
identifier is registered in the seen-set, and the seen-set only grows. -/
theorem scanPage_invariant (maxR : Nat) (items : List Candidate)
    (pairs : List Candidate) (seen : List (List Char))
    (hnodup : (pairs.map Candidate.nctId).Nodup)
    (hseen : ∀ p ∈ pairs, ∃ m, p.nctId = some m ∧ m ∈ seen) :
    ((scanPage maxR items pairs seen).1.map Candidate.nctId).Nodup ∧
    (∀ p ∈ (scanPage maxR items pairs seen).1,
      ∃ m, p.nctId = some m ∧ m ∈ (scanPage maxR items pairs seen).2) ∧
    (∀ m ∈ seen, m ∈ (scanPage maxR items pairs seen).2) := by
  induction items generalizing pairs seen with
  | nil =>
    exact ⟨hnodup, fun p hp => hseen p hp, fun m hm => hm⟩
  | cons it rest ih =>
    simp only [scanPage]
    cases hn : it.nctId with
    | none => exact ih pairs seen hnodup hseen
    | some nct =>
      by_cases hskip : (nct.isEmpty || seen.contains nct) = true
      · simp only [hskip, if_pos]
        exact ih pairs seen hnodup hseen
      · simp only [hskip, if_neg, Bool.not_eq_true]
        have hnotseen : nct ∉ seen := by
          intro hmem
          exact hskip (by
            simp [List.contains, List.elem_iff, hmem])
        have hnotin : some nct ∉ pairs.map Candidate.nctId := by
          intro hmem
          obtain ⟨p, hp, hpn⟩ := List.mem_map.mp hmem
          obtain ⟨m, hm, hmseen⟩ := hseen p hp
          rw [hm] at hpn
          exact hnotseen (by
            have : m = nct := Option.some.inj hpn
            simpa [this] using hmseen)
        have hnodup' : ((pairs ++ [it]).map Candidate.nctId).Nodup := by
          simp only [List.map_append, List.map_cons, List.map_nil]
          rw [List.nodup_append]
          refine ⟨hnodup, List.nodup_singleton _, ?_⟩
          intro x hx hx'
          simp only [List.mem_singleton] at hx'
          subst hx'
          rw [hn] at hx
          exact hnotin hx
        have hseen' : ∀ p ∈ pairs ++ [it], ∃ m, p.nctId = some m ∧ m ∈ nct :: seen := by
          intro p hp
          rcases List.mem_append.mp hp with hp | hp
          · obtain ⟨m, hm, hmseen⟩ := hseen p hp
            exact ⟨m, hm, List.mem_cons_of_mem _ hmseen⟩
          · simp only [List.mem_singleton] at hp
            subst hp
            exact ⟨nct, hn, List.mem_cons_self _ _⟩
        by_cases hfull : maxR ≤ (pairs ++ [it]).length
        · simp only [hfull, if_pos]
          exact ⟨hnodup', hseen', fun m hm => List.mem_cons_of_mem _ hm⟩
        · simp only [hfull, if_neg]
          obtain ⟨h1, h2, h3⟩ := ih (pairs ++ [it]) (nct :: seen) hnodup' hseen'
          exact ⟨h1, h2, fun m hm => h3 m (List.mem_cons_of_mem _ hm)⟩

/-- The same invariant across the pagination loop. -/
theorem collectPairs_invariant (maxR : Nat) (pages : List (List RawItem))
    (pairs : List Candidate) (seen : List (List Char))
    (hnodup : (pairs.map Candidate.nctId).Nodup)
    (hseen : ∀ p ∈ pairs, ∃ m, p.nctId = some m ∧ m ∈ seen) :
    ((collectPairs maxR pages pairs seen).map Candidate.nctId).Nodup ∧
    (∀ p ∈ collectPairs maxR pages pairs seen, ∃ m, p.nctId = some m) := by
  induction pages generalizing pairs seen with
  | nil =>
    exact ⟨hnodup, fun p hp => (hseen p hp).imp fun m hm => hm.1⟩
  | cons pg pgs ih =>
    simp only [collectPairs]
    by_cases hlt : pairs.length < maxR
    · simp only [hlt, if_pos]
      obtain ⟨h1, h2, _⟩ :=
        scanPage_invariant maxR (pairsFromSearchPage pg) pairs seen hnodup hseen
      by_cases hfull :
          maxR ≤ (scanPage maxR (pairsFromSearchPage pg) pairs seen).1.length
      · simp only [hfull, if_pos]
        exact ⟨h1, fun p hp => (h2 p hp).imp fun m hm => hm.1⟩
      · simp only [hfull, if_neg]
        exact ih _ _ h1 h2
    · simp only [hlt, if_neg]
      exact ⟨hnodup, fun p hp => (hseen p hp).imp fun m hm => hm.1⟩

/-! ## Claim theorems -/

/-- C4: for every pipeline run with requested maximum `maxR`, the count
returned by `scrape` and the number of record lines written to the Run
Artifact are both at most `maxR`. -/
theorem scrape_count_le_max (pages : List (List RawItem)) (maxR : Nat)
    (detail : List Char → Option (List Char) × Option Nat) :
    (scrapeRun pages maxR detail).count ≤ maxR ∧
    (scrapeRun pages maxR detail).written.length ≤ maxR := by
  constructor <;> simp [scrapeRun]

/-- C5: within one pipeline run the `nctId` values of the output records
are pairwise distinct — the seen-set skip of empty or already-seen
canonical identifiers makes the written identifier list duplicate-free. -/
theorem scrape_nctIds_nodup (pages : List (List RawItem)) (maxR : Nat)
    (detail : List Char → Option (List Char) × Option Nat) :
    ((scrapeRun pages maxR detail).written.map Record.nctId).Nodup := by
  have hpairs :
      ((collectPairs maxR pages [] []).map Candidate.nctId).Nodup :=
    (collectPairs_invariant maxR pages [] [] (by simp) (by simp)).1
  have htake :
      (((collectPairs maxR pages [] []).take maxR).map Candidate.nctId).Nodup :=
    ((List.take_sublist _ _).map _).nodup hpairs
  have hrecs := (buildRecords_nctIds_sublist detail
    ((collectPairs maxR pages [] []).take maxR)).nodup htake
  simpa [scrapeRun] using ((List.take_sublist maxR _).map Record.nctId).nodup hrecs

/-- C1 counterexample: a 1-second timeout against a child that writes no
output line and exits successfully after 10 seconds.  The per-line
timeout check never runs, so the child is not killed: the orchestrator
returns exit status `0` (success, not failure), elapsed time `10` (the
child's full lifetime, not ≈1), and an empty log with no timeout-kill
line — contradicting the claim on all three points. -/
theorem silent_child_runs_to_completion :
    runPlaywrightSubprocess (some 1) [] 10 0 = (0, 10, []) ∧
    killMsg ∉ (runPlaywrightSubprocess (some 1) [] 10 0).2.2 := by
  constructor
  · rfl
  · simp [runPlaywrightSubprocess, superviseGo]

/-- C2 counterexample: the cleaned text `"nct123"` contains,
case-insensitively, `NCT` followed by one or more digits, so the claim
demands the result `"NCT123"`; the code's pattern `\bNCT\s*(\d{4,})\b`
requires at least four digits, so `_canonical_nct` returns the cleaned
text `"nct123"` unchanged — which is also not of the form `NCT<digits>`,
refuting the consequence about every emitted `nctId`. -/
theorem canonical_nct_three_digits_unchanged :
    canonicalNct (some "nct123".toList) = some "nct123".toList ∧
    "nct123".toList ≠ "NCT123".toList := by
  constructor
  · rfl
  · decide

/-- C3 counterexample: on `"1234 1999"` the API client's `_extract_year`
returns the first four-digit window `1234`, while the browser pipeline's
`_extract_year` prefers the word-bounded `19xx` token and returns `1999`;
the two extractors are not extensionally equal. -/
theorem extract_year_functions_differ :
    apiExtractYear (some "1234 1999".toList) = some 1234 ∧
    pwExtractYear (some "1234 1999".toList) = some 1999 ∧
    (1234 : Nat) ≠ 1999 := by
  refine ⟨by rfl, by rfl, by decide⟩

/-- C7 counterexample: on `"1111 2014"` the first 4-digit token is
`1111` (and the API client returns it), but the pipeline's
`_extract_year` returns `2014`, preferring the word-bounded `20xx`
token — so year extraction does not always return the first 4-digit
token. -/
theorem pw_year_not_first_token :
    apiExtractYear (some "1111 2014".toList) = some 1111 ∧
    pwExtractYear (some "1111 2014".toList) = some 2014 ∧
    (2014 : Nat) ≠ 1111 := by
  refine ⟨by rfl, by rfl, by decide⟩

/-- C9 counterexample: when both external lookups fail (the regime the
catch-all handlers are written for), `canonicalize_country` maps
`"england"` to the title-cased `"England"`, but a second application hits
the manual alias table and returns `"United Kingdom"` — so
`canonicalize_country` is not idempotent. -/
theorem canonicalize_country_not_idempotent :
    canonicalizeCountry failingOracle (some "england".toList)
      = some "England".toList ∧
    canonicalizeCountry failingOracle
        (canonicalizeCountry failingOracle (some "england".toList))
      = some "United Kingdom".toList ∧
    some "England".toList ≠ some "United Kingdom".toList := by
  refine ⟨by rfl, by rfl, by decide⟩

/-- C6 counterexample: a candidate whose detail-page title chain yields
nothing falls back to its results-list title; that fallback title is not
checked for `"unknown status"`, so a record whose resolved title contains
`"Unknown Status"` is emitted. -/
theorem unknown_status_list_title_emitted :
    (scrapeRun
        [[{ nct := some "NCT99990001".toList, url := some "u".toList,
            briefTitle := some "Unknown Status trial".toList,
            country := none }]]
        3 (fun _ => (none, none))).written
      = [{ nctId := some "NCT99990001".toList,
           briefTitle := some "Unknown Status trial".toList,
           startYear := none, country := none }] ∧
    containsUnknown "Unknown Status trial".toList = true := by
  refine ⟨by rfl, by rfl⟩

/-- C1 (amended): the orchestrator's timeout is enforced only at the
per-line check — whenever the child writes a line after the nonzero
timeout `T` has elapsed (every earlier line arriving within budget), the
orchestrator kills the child at that line's arrival time `t`: it returns
the kill signal status `-9` (a failed run), reports elapsed time `t` (the
first post-deadline line, ≈`T` when output is frequent — not the child's
full lifetime), and the log ends with the lines received followed by the
synthetic `"Process killed due to timeout."` line.  A child that writes
no line after the deadline is never killed (see the counterexample). -/
theorem timeout_kill_on_late_line (T t : Nat) (line : List Char)
    (pre rest : List (Nat × List Char)) (exitTime : Nat) (exitCode : Int)
    (hT : 0 < T) (hpre : ∀ e ∈ pre, e.1 ≤ T) (ht : T < t) :
    runPlaywrightSubprocess (some T) (pre ++ (t, line) :: rest)
        exitTime exitCode
      = (killCode, t, pre.map Prod.snd ++ [line, killMsg]) := by
  have key : ∀ (pre' : List (Nat × List Char)) (logs : List (List Char)),
      (∀ e ∈ pre', e.1 ≤ T) →
      superviseGo (some T) exitTime exitCode (pre' ++ (t, line) :: rest) logs
        = (killCode, t, logs ++ pre'.map Prod.snd ++ [line, killMsg]) := by
    intro pre'
    induction pre' with
    | nil =>
      intro logs _
      have htrig : timeoutTriggered (some T) t = true := by
        simp [timeoutTriggered, hT, ht]
      simp [superviseGo, htrig]
    | cons e es ih =>
      intro logs hpre'
      have hnotrig : timeoutTriggered (some T) e.1 = false := by
        have : e.1 ≤ T := hpre' e (List.mem_cons_self _ _)
        simp [timeoutTriggered]
        omega
      obtain ⟨t₀, l₀⟩ := e
      simp only [List.cons_append, superviseGo, hnotrig, if_neg, Bool.false_eq_true,
        not_false_iff, List.append_eq]
      rw [ih (logs ++ [l₀]) (fun x hx => hpre' x (List.mem_cons_of_mem _ hx))]
      simp
  simpa [runPlaywrightSubprocess] using key pre [] hpre

/-- Witness for C1 (amended): timeout 1 against a child that writes a
line at time 0 and another at time 5; the second line triggers the kill:
failed status `-9`, elapsed 5, and the timeout-kill line logged. -/
theorem timeout_kill_on_late_line_witness :
    runPlaywrightSubprocess (some 1)
        [(0, "INFO start".toList), (5, "INFO page".toList)] 10 0
      = (killCode, 5, ["INFO start".toList, "INFO page".toList, killMsg]) :=
  timeout_kill_on_late_line 1 5 "INFO page".toList [(0, "INFO start".toList)] []
    10 0 (by decide) (by decide) (by decide)

theorem searchFourDigits_eq_none_of_no_digit (s : List Char)
    (h : ∀ c ∈ s, c.isDigit = false) : searchFourDigits s = none := by
  induction s with
  | nil => rfl
  | cons c cs ih =>
    have hc : c.isDigit = false := h c (List.mem_cons_self _ _)
    have ih' := ih (fun x hx => h x (List.mem_cons_of_mem _ hx))
    cases cs with
    | nil => rfl
    | cons b bs =>
      cases bs with
      | nil => rfl
      | cons d ds =>
        cases ds with
        | nil => rfl
        | cons e es => simpa [searchFourDigits, hc] using ih'

theorem matchYear19At_eq_none_of_head_not_digit (a : Char) (rest : List Char)
    (prevW : Bool) (ha : a.isDigit = false) :
    matchYear19At (a :: rest) prevW = none := by
  unfold matchYear19At
  by_cases hw : prevW = true
  · simp [hw]
  · simp only [Bool.not_eq_true] at hw
    simp only [hw, Bool.false_eq_true, if_neg, not_false_iff]
    rcases rest with _ | ⟨b, _ | ⟨d, _ | ⟨e, tail⟩⟩⟩
    · rfl
    · rfl
    · rfl
    · exact if_neg (by rintro ⟨⟨h1, -⟩ | ⟨h1, -⟩, -⟩ <;> subst h1 <;> simp at ha)

theorem searchYear19_eq_none_of_no_digit (s : List Char) (prevW : Bool)
    (h : ∀ c ∈ s, c.isDigit = false) : searchYear19 s prevW = none := by
  induction s generalizing prevW with
  | nil => rfl
  | cons c cs ih =>
    have hc : c.isDigit = false := h c (List.mem_cons_self _ _)
    have hmatch := matchYear19At_eq_none_of_head_not_digit c cs prevW hc
    simp only [searchYear19, hmatch]
    exact ih (isWordChar c) (fun x hx => h x (List.mem_cons_of_mem _ hx))

/-- C3 (amended): the two `_extract_year` implementations agree on every
string on which the pipeline's preferred word-bounded `19xx`/`20xx`
search finds nothing (both then take the first window of four consecutive
digits, and both map a digitless or empty string to absent); when that
search succeeds the pipeline returns its token, which can differ from the
API client's first 4-digit window (see the counterexample). -/
theorem extract_year_agree_without_bounded_year (s : List Char)
    (h : searchYear19 s false = none) :
    pwExtractYear (some s) = apiExtractYear (some s) := by
  cases s with
  | nil => rfl
  | cons c cs => simp [pwExtractYear, apiExtractYear, h]

/-- Witness for C3 (amended): `"abc 1234"` has no word-bounded
`19xx`/`20xx` token, and both extractors return `1234`. -/
theorem extract_year_agree_without_bounded_year_witness :
    pwExtractYear (some "abc 1234".toList)
      = apiExtractYear (some "abc 1234".toList) :=
  extract_year_agree_without_bounded_year "abc 1234".toList (by rfl)

/-- C7 (amended): the API client's year extraction returns the first
window of four consecutive digits, while the pipeline's first prefers a
word-bounded `19xx`/`20xx` token (so it can disagree with the "first
4-digit token" rule — see the counterexample); on
`"Study start: March 2014 (estimated)"` both return `2014`, and on any
string containing no digit both return absent. -/
theorem extract_year_examples :
    apiExtractYear (some "Study start: March 2014 (estimated)".toList)
      = some 2014 ∧
    pwExtractYear (some "Study start: March 2014 (estimated)".toList)
      = some 2014 ∧
    ∀ s : List Char, (∀ c ∈ s, c.isDigit = false) →
      apiExtractYear (some s) = none ∧ pwExtractYear (some s) = none := by
  refine ⟨by rfl, by rfl, ?_⟩
  intro s h
  have h4 := searchFourDigits_eq_none_of_no_digit s h
  have h19 := searchYear19_eq_none_of_no_digit s false h
  cases s with
  | nil => exact ⟨rfl, rfl⟩
  | cons c cs => exact ⟨by simp [apiExtractYear, h4], by simp [pwExtractYear, h19, h4]⟩

/-- Witness for C7 (amended): the digitless string `"March (estimated)"`
yields absent from both extractors. -/
theorem extract_year_examples_witness :
    apiExtractYear (some "March (estimated)".toList) = none ∧
    pwExtractYear (some "March (estimated)".toList) = none :=
  extract_year_examples.2.2 "March (estimated)".toList (by decide)

theorem matchNctAt_spec (l : List Char) (prevW : Bool) (d : List Char)
    (h : matchNctAt l prevW = some d) :
    4 ≤ d.length ∧ ∀ c ∈ d, c.isDigit = true := by
  unfold matchNctAt at h
  split at h
  · exact absurd h (by simp)
  · split at h
    · split at h
      · dsimp only at h
        split at h
        · rename_i hcond
          obtain rfl : _ = d := Option.some.inj h
          exact ⟨hcond.1, fun c hc => List.mem_takeWhile_imp hc⟩
        · exact absurd h (by simp)
      · exact absurd h (by simp)
    · exact absurd h (by simp)

theorem searchNct_spec (l : List Char) (prevW : Bool) (d : List Char)
    (h : searchNct l prevW = some d) :
    4 ≤ d.length ∧ ∀ c ∈ d, c.isDigit = true := by
  induction l generalizing prevW with
  | nil => exact absurd h (by simp [searchNct])
  | cons c cs ih =>
    simp only [searchNct] at h
    cases hm : matchNctAt (c :: cs) prevW with
    | some d' =>
      rw [hm] at h
      obtain rfl : d' = d := Option.some.inj h
      exact matchNctAt_spec _ _ _ hm
    | none =>
      rw [hm] at h
      exact ih (isWordChar c) h

/-- C2 (amended): identifier canonicalization cleans the text (invisible
characters stripped, whitespace normalized); when the cleaned text
matches, case-insensitively, `NCT` followed by optional whitespace and a
word-bounded run of **four or more** digits, the result is `NCT`
concatenated with those digits; otherwise the cleaned text itself is
returned (so an emitted `nctId` need not be of the form `NCT<digits>` —
see the counterexample); a blank or absent input gives absent. -/
theorem canonical_nct_match_digits (l d : List Char)
    (h : searchNct (cleanChars l) false = some d) :
    canonicalNct (some l) = some ('N' :: 'C' :: 'T' :: d) ∧
    4 ≤ d.length ∧ ∀ c ∈ d, c.isDigit = true := by
  have hspec := searchNct_spec _ _ _ h
  have hne : cleanChars l ≠ [] := by
    intro hnil
    rw [hnil] at h
    exact absurd h (by simp [searchNct])
  refine ⟨?_, hspec.1, hspec.2⟩
  simp [canonicalNct, cleanText, hne, h]

/-- Witness for C2 (amended): `" see NCT 2345678 now"` canonicalizes to
`"NCT2345678"`, a run of seven digits. -/
theorem canonical_nct_match_digits_witness :
    canonicalNct (some " see NCT 2345678 now".toList)
      = some ('N' :: 'C' :: 'T' :: "2345678".toList) ∧
    4 ≤ "2345678".toList.length ∧
    ∀ c ∈ "2345678".toList, c.isDigit = true :=
  canonical_nct_match_digits " see NCT 2345678 now".toList "2345678".toList
    (by rfl)

/-- A string that is not Python-falsy is `some` of its own contents. -/
theorem eq_some_getD_of_not_falsy (x : Option (List Char))
    (h : pyFalsyStr x = false) : x = some (x.getD []) := by
  cases x with
  | none => simp [pyFalsyStr] at h
  | some s => rfl

/-- C9 (amended): `canonicalize_country` is total for every behavior of
the external lookups — it returns absent exactly on an absent or blank
input and a string otherwise, never raising (exceptions in either lookup
are absorbed); and it is idempotent at an input whose first
canonicalization yields a result `r` that is nonempty, fixed by
stripping, not a manual-alias key, and fixed by the lookup chain.
Without the lookup-chain conditions idempotence can fail (see the
counterexample). -/
theorem canonicalize_country_total_conditional_idem (o : CountryOracle)
    (v : Option (List Char)) :
    (canonicalizeCountry o v = none ↔
      (v = none ∨ pyStrip (v.getD []) = [])) ∧
    (∀ r, canonicalizeCountry o v = some r → r ≠ [] → pyStrip r = r →
      manualLookup r = none → oracleChain o r = r →
      canonicalizeCountry o (canonicalizeCountry o v)
        = canonicalizeCountry o v) := by
  constructor
  · cases v with
    | none => simp [canonicalizeCountry]
    | some raw =>
      by_cases hraw : raw = []
      · subst hraw
        simp [canonicalizeCountry, pyStrip]
      · by_cases hstrip : pyStrip raw = []
        · simp [canonicalizeCountry, hraw, hstrip]
        · simp only [canonicalizeCountry, hraw, hstrip, if_neg, Option.getD_some]
          cases hm : manualLookup (pyStrip raw) <;> simp [hm, hraw, hstrip]
  · intro r hr hne hstr hman hchain
    rw [hr]
    simp [canonicalizeCountry, hne, hstr, hman, hchain]

/-- Witness for C9 (amended): with failing external lookups,
`"France"` canonicalizes to `"France"` and a second application is a
no-op. -/
theorem canonicalize_country_total_conditional_idem_witness :
    canonicalizeCountry failingOracle
        (canonicalizeCountry failingOracle (some "France".toList))
      = canonicalizeCountry failingOracle (some "France".toList) :=
  (canonicalize_country_total_conditional_idem failingOracle
      (some "France".toList)).2 "France".toList (by rfl) (by decide) (by rfl)
    (by rfl) (by rfl)

/-- C6 (amended): the unknown-status exclusion is applied to the
detail-view title only — every record `scrape` emits comes from a
collected candidate whose detail title did not trigger the skip (in
particular, if the detail title is truthy it does not contain
`"unknown status"` in any case), and the record's title is that detail
title or, when it is falsy, the unchecked results-list title (so a
results-list fallback title containing `"unknown status"` can still be
emitted — see the counterexample). -/
theorem unknown_status_detail_title_excluded (pages : List (List RawItem))
    (maxR : Nat) (detail : List Char → Option (List Char) × Option Nat)
    (r : Record) (hr : r ∈ (scrapeRun pages maxR detail).written) :
    ∃ it ∈ (collectPairs maxR pages [] []).take maxR,
      r.nctId = it.nctId ∧
      btUnknownSkip (detail (it.url.getD [])).1 = false ∧
      r.briefTitle = pyOr (detail (it.url.getD [])).1 it.briefTitle := by
  have hr' : r ∈ (buildRecords detail
      ((collectPairs maxR pages [] []).take maxR)).1 := by
    have := hr
    simp only [scrapeRun] at this
    exact List.mem_of_mem_take this
  obtain ⟨it, hmem, _, _, hus, hnct, hbt, _, _⟩ :=
    buildRecords_mem_spec detail _ r hr'
  exact ⟨it, hmem, hnct, hus, hbt⟩

/-- Witness for C6 (amended): a run emitting one record whose detail
title `"Good title"` passes the check. -/
theorem unknown_status_detail_title_excluded_witness :
    ∃ it ∈ (collectPairs 2
        [[{ nct := some "NCT55550001".toList, url := some "u".toList,
            briefTitle := some "ListTitle".toList, country := none }]]
        [] []).take 2,
      ({ nctId := some "NCT55550001".toList,
         briefTitle := some "Good title".toList,
         startYear := some 1999, country := none } : Record).nctId = it.nctId ∧
      btUnknownSkip ((fun _ => (some "Good title".toList, some 1999))
          (it.url.getD [])).1 = false ∧
      ({ nctId := some "NCT55550001".toList,
         briefTitle := some "Good title".toList,
         startYear := some 1999, country := none } : Record).briefTitle
        = pyOr ((fun _ => (some "Good title".toList, some 1999))
            (it.url.getD [])).1 it.briefTitle :=
  unknown_status_detail_title_excluded
    [[{ nct := some "NCT55550001".toList, url := some "u".toList,
        briefTitle := some "ListTitle".toList, country := none }]]
    2 (fun _ => (some "Good title".toList, some 1999))
    { nctId := some "NCT55550001".toList,
      briefTitle := some "Good title".toList,
      startYear := some 1999, country := none }
    (by decide)

/-- C10: a collected candidate whose canonical identifier is truthy but
whose detail-page URL is falsy is silently dropped before detail
extraction — no output record carries its identifier and no
`WARN_TITLE_NONE` diagnostic mentions it; consequently the returned
count can be strictly smaller than the number of deduplicated candidates
even when the source offered enough results (second conjunct: one
candidate collected, zero records returned). -/
theorem urlless_candidate_silently_dropped :
    (∀ (pages : List (List RawItem)) (maxR : Nat)
        (detail : List Char → Option (List Char) × Option Nat)
        (it : Candidate),
      it ∈ (collectPairs maxR pages [] []).take maxR →
      pyFalsyStr it.nctId = false → pyFalsyStr it.url = true →
      (∀ r ∈ (scrapeRun pages maxR detail).written, r.nctId ≠ it.nctId) ∧
      (∀ w ∈ (scrapeRun pages maxR detail).warns, some w.1 ≠ it.nctId)) ∧
    ((scrapeRun [[urllessRaw]] 1 (fun _ => (none, none))).count = 0 ∧
     (collectPairs 1 [[urllessRaw]] [] []).length = 1 ∧
     (scrapeRun [[urllessRaw]] 1 (fun _ => (none, none))).warns = []) := by
  constructor
  · intro pages maxR detail it hmem hnct hurl
    have hpairs_nodup :
        ((collectPairs maxR pages [] []).map Candidate.nctId).Nodup :=
      (collectPairs_invariant maxR pages [] [] (by simp) (by simp)).1
    have hinj := List.inj_on_of_nodup_map hpairs_nodup
    have hmem' : it ∈ collectPairs maxR pages [] [] := List.mem_of_mem_take hmem
    constructor
    · intro r hr hreq
      have hr' : r ∈ (buildRecords detail
          ((collectPairs maxR pages [] []).take maxR)).1 := by
        have := hr
        simp only [scrapeRun] at this
        exact List.mem_of_mem_take this
      obtain ⟨it', hmem'', _, hurl', _, hnct', _, _, _⟩ :=
        buildRecords_mem_spec detail _ r hr'
      have : it' = it :=
        hinj (List.mem_of_mem_take hmem'') hmem' (by rw [← hnct', hreq])
      rw [this] at hurl'
      rw [hurl] at hurl'
      exact absurd hurl' (by simp)
    · intro w hw hweq
      have hw' : w ∈ (buildRecords detail
          ((collectPairs maxR pages [] []).take maxR)).2 := hw
      obtain ⟨it', hmem'', hnct', hurl', hw1⟩ :=
        buildRecords_warn_spec detail _ w hw'
      have hsome : it'.nctId = some w.1 := by
        rw [hw1]
        exact eq_some_getD_of_not_falsy _ hnct'
      have : it' = it :=
        hinj (List.mem_of_mem_take hmem'') hmem' (by rw [hsome, hweq])
      rw [this] at hurl'
      rw [hurl] at hurl'
      exact absurd hurl' (by simp)
  · exact ⟨by rfl, by rfl, by rfl⟩

/-- Witness for C10: in the concrete one-candidate run the collected
URL-less candidate yields no record and no diagnostic. -/
theorem urlless_candidate_silently_dropped_witness :
    (∀ r ∈ (scrapeRun [[urllessRaw]] 1 (fun _ => (none, none))).written,
      r.nctId ≠ urllessCand.nctId) ∧
    (∀ w ∈ (scrapeRun [[urllessRaw]] 1 (fun _ => (none, none))).warns,
      some w.1 ≠ urllessCand.nctId) :=
  urlless_candidate_silently_dropped.1 [[urllessRaw]] 1
    (fun _ => (none, none)) urllessCand (by decide) (by rfl) (by rfl)

theorem digitProps (c : Char) (h : c.isDigit = true) :
    isPySpace c = false ∧ replaceNbsp c = c ∧ isZeroWidthStrip c = false := by
  have hn : 48 ≤ c.toNat ∧ c.toNat ≤ 57 := by
    simp [Char.isDigit] at h
    exact h
  refine ⟨?_, ?_, ?_⟩
  · simp [isPySpace]
    omega
  · simp [replaceNbsp]
    omega
  · simp [isZeroWidthStrip]
    omega

theorem replaceNbsp_idem (c : Char) :
    replaceNbsp (replaceNbsp c) = replaceNbsp c := by
  by_cases h : c.toNat = 0xA0 <;> simp [replaceNbsp, h]

theorem mem_preClean_props (l : List Char) (c : Char) (hc : c ∈ preClean l) :
    replaceNbsp c = c ∧ isZeroWidthStrip c = false := by
  unfold preClean at hc
  have h1 := (List.mem_filter.mp hc).2
  have h2 := (List.mem_filter.mp hc).1
  obtain ⟨c0, -, rfl⟩ := List.mem_map.mp h2
  exact ⟨replaceNbsp_idem c0, by simpa using h1⟩

theorem preClean_eq_self (l : List Char)
    (h : ∀ c ∈ l, replaceNbsp c = c ∧ isZeroWidthStrip c = false) :
    preClean l = l := by
  unfold preClean
  have hm : l.map replaceNbsp = l := by
    rw [List.map_congr_left (fun c hc => (h c hc).1)]
    exact List.map_id l
  rw [hm]
  exact List.filter_eq_self.mpr (fun c hc => by simp [(h c hc).2])

theorem wordsAux_append_word (w : List Char)
    (hw : ∀ c ∈ w, isPySpace c = false) (rest acc : List Char) :
    wordsAux (w ++ rest) acc = wordsAux rest (acc ++ w) := by
  induction w generalizing acc with
  | nil => simp
  | cons c cs ih =>
    have hc : isPySpace c = false := hw c (List.mem_cons_self _ _)
    simp only [List.cons_append, wordsAux, hc, Bool.false_eq_true, if_neg,
      not_false_iff, List.append_eq]
    rw [ih (fun x hx => hw x (List.mem_cons_of_mem _ hx)) (acc ++ [c])]
    simp

theorem words_single (w : List Char) (hne : w ≠ [])
    (hw : ∀ c ∈ w, isPySpace c = false) : words w = [w] := by
  have h := wordsAux_append_word w hw [] []
  simp only [List.append_nil, List.nil_append] at h
  unfold words
  rw [h]
  simp [wordsAux, hne]

theorem words_joinWords (ws : List (List Char))
    (h : ∀ w ∈ ws, w ≠ [] ∧ ∀ c ∈ w, isPySpace c = false) :
    words (joinWords ws) = ws := by
  induction ws with
  | nil => rfl
  | cons w ws' ih =>
    obtain ⟨hne, hnc⟩ := h w (List.mem_cons_self _ _)
    cases ws' with
    | nil => exact words_single w hne hnc
    | cons w' ws'' =>
      show words (w ++ ' ' :: joinWords (w' :: ws'')) = w :: w' :: ws''
      unfold words
      rw [wordsAux_append_word w hnc (' ' :: joinWords (w' :: ws'')) []]
      simp only [List.nil_append]
      have hsp : isPySpace ' ' = true := by decide
      rw [show wordsAux (' ' :: joinWords (w' :: ws'')) w
          = w :: wordsAux (joinWords (w' :: ws'')) [] from by
        simp [wordsAux, hsp, hne]]
      congr 1
      exact ih (fun x hx => h x (List.mem_cons_of_mem _ hx))

theorem wordsAux_spec (P : Char → Prop) (l : List Char) :
    ∀ acc, (∀ c ∈ l, isPySpace c = false → P c) →
    (∀ c ∈ acc, isPySpace c = false ∧ P c) →
    ∀ w ∈ wordsAux l acc, w ≠ [] ∧ ∀ c ∈ w, isPySpace c = false ∧ P c := by
  induction l with
  | nil =>
    intro acc _ hacc w hw
    unfold wordsAux at hw
    by_cases h : acc = []
    · simp [h] at hw
    · rw [if_neg h] at hw
      simp only [List.mem_singleton] at hw
      subst hw
      exact ⟨h, hacc⟩
  | cons c cs ih =>
    intro acc hl hacc w hw
    have hl' : ∀ x ∈ cs, isPySpace x = false → P x :=
      fun x hx => hl x (List.mem_cons_of_mem _ hx)
    unfold wordsAux at hw
    by_cases hc : isPySpace c = true
    · rw [if_pos hc] at hw
      by_cases ha : acc = []
      · rw [if_pos ha] at hw
        exact ih [] hl' (by simp) w hw
      · rw [if_neg ha] at hw
        rcases List.mem_cons.mp hw with rfl | hw'
        · exact ⟨ha, hacc⟩
        · exact ih [] hl' (by simp) w hw'
    · rw [if_neg hc] at hw
      have hcF : isPySpace c = false := by simpa using hc
      refine ih (acc ++ [c]) hl' ?_ w hw
      intro x hx
      rcases List.mem_append.mp hx with hx | hx
      · exact hacc x hx
      · simp only [List.mem_singleton] at hx
        subst hx
        exact ⟨hcF, hl x (List.mem_cons_self _ _) hcF⟩

theorem words_spec (l : List Char) :
    ∀ w ∈ words l, w ≠ [] ∧ ∀ c ∈ w, isPySpace c = false ∧ c ∈ l :=
  wordsAux_spec (· ∈ l) l [] (fun c hc _ => hc) (by simp)

theorem mem_joinWords (ws : List (List Char)) (c : Char)
    (hc : c ∈ joinWords ws) : c = ' ' ∨ ∃ w ∈ ws, c ∈ w := by
  induction ws with
  | nil => simp [joinWords] at hc
  | cons w ws' ih =>
    cases ws' with
    | nil => exact Or.inr ⟨w, List.mem_cons_self _ _, hc⟩
    | cons w' ws'' =>
      rcases List.mem_append.mp hc with h | h
      · exact Or.inr ⟨w, List.mem_cons_self _ _, h⟩
      · rcases List.mem_cons.mp h with rfl | h'
        · exact Or.inl rfl
        · rcases ih h' with h'' | ⟨w0, hw0, hcw⟩
          · exact Or.inl h''
          · exact Or.inr ⟨w0, List.mem_cons_of_mem _ hw0, hcw⟩

theorem cleanChars_idem (l : List Char) :
    cleanChars (cleanChars l) = cleanChars l := by
  have hspec := words_spec (preClean l)
  have hjoin : ∀ c ∈ joinWords (words (preClean l)),
      replaceNbsp c = c ∧ isZeroWidthStrip c = false := by
    intro c hc
    rcases mem_joinWords _ c hc with rfl | ⟨w, hw, hcw⟩
    · exact ⟨by decide, by decide⟩
    · exact mem_preClean_props _ _ ((hspec w hw).2 c hcw).2
  show joinWords (words (preClean (cleanChars l))) = cleanChars l
  unfold cleanChars
  rw [preClean_eq_self _ hjoin]
  rw [words_joinWords _ (fun w hw =>
    ⟨(hspec w hw).1, fun c hc => ((hspec w hw).2 c hc).1⟩)]

theorem cleanChars_single (w : List Char) (hne : w ≠ [])
    (hprops : ∀ c ∈ w,
      isPySpace c = false ∧ replaceNbsp c = c ∧ isZeroWidthStrip c = false) :
    cleanChars w = w := by
  unfold cleanChars
  rw [preClean_eq_self w (fun c hc => ⟨(hprops c hc).2.1, (hprops c hc).2.2⟩)]
  rw [words_single w hne (fun c hc => (hprops c hc).1)]
  rfl

theorem searchNct_nct_digits (d : List Char) (h4 : 4 ≤ d.length)
    (hd : ∀ c ∈ d, c.isDigit = true) :
    searchNct ('N' :: 'C' :: 'T' :: d) false = some d := by
  have h1 : d.dropWhile isPySpace = d := by
    cases d with
    | nil => rfl
    | cons c cs =>
      rw [List.dropWhile_cons_of_neg]
      simp [(digitProps c (hd c (List.mem_cons_self _ _))).1]
  have h2 : d.takeWhile Char.isDigit = d := List.takeWhile_eq_self_iff.mpr hd
  have h3 : d.dropWhile Char.isDigit = [] := List.dropWhile_eq_nil_iff.mpr
    (fun x hx => hd x hx)
  have hmatch : matchNctAt ('N' :: 'C' :: 'T' :: d) false = some d := by
    unfold matchNctAt
    simp [h1, h2, h3, h4]
  simp [searchNct, hmatch]

/-- C8: `_canonical_nct` is idempotent — applying it twice gives the same
result as applying it once, for every optional text input. -/
theorem canonical_nct_idempotent (v : Option (List Char)) :
    canonicalNct (canonicalNct v) = canonicalNct v := by
  cases v with
  | none => rfl
  | some l =>
    by_cases hs : cleanChars l = []
    · simp [canonicalNct, cleanText, hs]
    · cases hsearch : searchNct (cleanChars l) false with
      | none =>
        simp [canonicalNct, cleanText, hs, hsearch, cleanChars_idem l]
      | some d =>
        obtain ⟨h4, hd⟩ := searchNct_spec _ _ _ hsearch
        have hprops : ∀ c ∈ ('N' :: 'C' :: 'T' :: d),
            isPySpace c = false ∧ replaceNbsp c = c ∧
              isZeroWidthStrip c = false := by
          intro c hc
          rcases List.mem_cons.mp hc with rfl | hc
          · exact ⟨by decide, by decide, by decide⟩
          rcases List.mem_cons.mp hc with rfl | hc
          · exact ⟨by decide, by decide, by decide⟩
          rcases List.mem_cons.mp hc with rfl | hc
          · exact ⟨by decide, by decide, by decide⟩
          · exact digitProps c (hd c hc)
        have hclean : cleanChars ('N' :: 'C' :: 'T' :: d)
            = 'N' :: 'C' :: 'T' :: d :=
          cleanChars_single _ (by simp) hprops
        have hsearch2 : searchNct ('N' :: 'C' :: 'T' :: d) false = some d :=
          searchNct_nct_digits d h4 hd
        simp [canonicalNct, cleanText, hs, hsearch, hclean, hsearch2]

end ClinicalTrials
